import Mathlib

/-!
Verification of the pizza-sales dashboard aggregation pipeline (`src/app.py`).

The program loads a CSV of sales transactions, enriches each row with
derived timestamp fields, and computes four aggregate views:
daily sales (grouped by the raw `order_date` string, then sorted by the
parsed date), three dimension rankings (grouped by `pizza_name`,
`pizza_category`, `pizza_size`, sorted descending by revenue), an overall
average order value (mean of per-order totals), plus a top-K prefix query
and an inclusive date-range filter over the daily series.

Modelling choices:
* `total_price` is an exact rational (`ℚ`); the claims are about exact
  aggregation identities, and the spec states prices as decimals.
* Date parsing (`pd.to_datetime` with mixed formats) is abstracted as a
  function `parse : String → ℤ` (a day ordinal); all theorems about
  sorting and filtering are quantified over an arbitrary parser, which
  makes them strictly stronger than any fixed-parser statement.
* `groupby` with pandas' default `sort=True` is modelled as: deduplicate
  the key column, sort the distinct keys ascending, and for each key take
  the sub-list of rows (in input order) whose key matches.
* `sort_values` is modelled by `List.insertionSort`; the spec declares the
  order of revenue ties implementation-defined, so any comparison sort is
  a faithful model.
-/

namespace Dashboard

/-- One row of the input CSV (`pizza_sales.csv`): the eight columns the
pipeline reads. -/
structure Transaction where
  order_id : Nat
  order_date : String
  order_time : String
  pizza_name : String
  pizza_category : String
  pizza_size : String
  quantity : Nat
  total_price : ℚ
deriving DecidableEq

/-- Code-point lexicographic comparison of character lists, the order in
which pandas sorts string group keys. -/
def charListLe : List Char → List Char → Bool
  | [], _ => true
  | _ :: _, [] => false
  | a :: as, b :: bs => if a < b then true else if b < a then false else charListLe as bs

/-- Code-point lexicographic comparison of strings. -/
def strLe (a b : String) : Bool := charListLe a.data b.data

/-- Distinct values of a key column, sorted ascending by `le` — the group
keys produced by `df.groupby(col)` with pandas' default `sort=True`. -/
def groupKeys {κ : Type} [DecidableEq κ] (le : κ → κ → Bool) (key : Transaction → κ)
    (ts : List Transaction) : List κ :=
  List.insertionSort (fun a b => le a b = true) ((ts.map key).dedup)

/-- One entry of the `daily_sales` frame (lines 25-29 of `app.py`). -/
structure DailyRow where
  order_date : String
  daily_total_revenue : ℚ
  daily_unique_orders : Nat
  daily_average_order_value : ℚ
deriving DecidableEq

/-- The aggregate row for one distinct `order_date` string: summed
`total_price`, `nunique` of `order_id`, and their ratio (line 29). -/
def dailyRowOf (ts : List Transaction) (d : String) : DailyRow :=
  let g := ts.filter (fun t => t.order_date = d)
  let rev : ℚ := (g.map Transaction.total_price).sum
  let uniq : Nat := ((g.map Transaction.order_id).dedup).length
  ⟨d, rev, uniq, rev / (uniq : ℚ)⟩

/-- `daily_sales` after the groupby/agg but before the sort of line 31. -/
def daily_sales_unsorted (ts : List Transaction) : List DailyRow :=
  (groupKeys strLe Transaction.order_date ts).map (dailyRowOf ts)

/-- `daily_sales` (lines 25-31): group by the raw `order_date` string,
aggregate, then sort ascending by the parsed date (lines 30-31). -/
def daily_sales (parse : String → ℤ) (ts : List Transaction) : List DailyRow :=
  List.insertionSort (fun a b => parse a.order_date ≤ parse b.order_date)
    (daily_sales_unsorted ts)

/-- One entry of a dimension-sales frame (`pizza_name_sales` etc.). -/
structure DimRow where
  key : String
  total_revenue : ℚ
  total_quantity_sold : Nat
deriving DecidableEq

/-- The aggregate row for one distinct dimension value: summed
`total_price` and summed `quantity` (lines 34-36). -/
def dimRowOf (dim : Transaction → String) (ts : List Transaction) (k : String) : DimRow :=
  let g := ts.filter (fun t => dim t = k)
  ⟨k, (g.map Transaction.total_price).sum, (g.map Transaction.quantity).sum⟩

/-- A dimension-sales frame: group by the dimension value, aggregate,
sort descending by `total_revenue` (lines 34-47, one call per dimension). -/
def dimension_sales (dim : Transaction → String) (ts : List Transaction) : List DimRow :=
  List.insertionSort (fun a b => b.total_revenue ≤ a.total_revenue)
    ((groupKeys strLe dim ts).map (dimRowOf dim ts))

/-- `pizza_name_sales` (lines 34-37). -/
def pizza_name_sales (ts : List Transaction) : List DimRow :=
  dimension_sales Transaction.pizza_name ts

/-- `pizza_category_sales` (lines 39-42). -/
def pizza_category_sales (ts : List Transaction) : List DimRow :=
  dimension_sales Transaction.pizza_category ts

/-- `pizza_size_sales` (lines 44-47). -/
def pizza_size_sales (ts : List Transaction) : List DimRow :=
  dimension_sales Transaction.pizza_size ts

/-- `top_n_pizzas = pizza_name_sales.head(num_pizzas)` (line 82). -/
def top_n_pizzas (ts : List Transaction) (k : Nat) : List DimRow :=
  (pizza_name_sales ts).take k

/-- `df.groupby('order_id')['total_price'].sum()` (line 49): the
per-order totals, one per distinct `order_id`. -/
def order_totals (ts : List Transaction) : List ℚ :=
  (groupKeys Nat.ble Transaction.order_id ts).map
    (fun i => ((ts.filter (fun t => t.order_id = i)).map Transaction.total_price).sum)

/-- `overall_average_order_value` (line 49): mean of the per-order totals. -/
def overall_average_order_value (ts : List Transaction) : ℚ :=
  (order_totals ts).sum / ((order_totals ts).length : ℚ)

/-- `filtered_daily_sales` (lines 65-66): keep the daily entries whose
parsed date lies in the inclusive range `[s, e]`. -/
def filtered_daily_sales (parse : String → ℤ) (ts : List Transaction) (s e : ℤ) : List DailyRow :=
  (daily_sales parse ts).filter
    (fun r => s ≤ parse r.order_date ∧ parse r.order_date ≤ e)

/-- A transaction carrying the three derived fields the Enricher adds
(lines 20-22): `order_datetime`, `hour`, `day_of_week`. -/
structure Enriched where
  base : Transaction
  order_datetime : ℤ
  hour : Nat
  day_of_week : String
deriving DecidableEq

/-- The Enricher (lines 20-22): parse `order_date ++ " " ++ order_time`
into a timestamp (the parser, hour extractor and weekday namer are
abstract parameters, standing for `pd.to_datetime`, `.dt.hour` and
`.dt.day_name()`), and attach the three derived fields to each row. -/
def enrich (parseDT : String → ℤ) (hourOf : ℤ → Nat) (dayName : ℤ → String)
    (ts : List Transaction) : List Enriched :=
  ts.map (fun t =>
    let dt := parseDT (t.order_date ++ " " ++ t.order_time)
    ⟨t, dt, hourOf dt, dayName dt⟩)

/-- Outcome of the Loader (lines 13-17): either the CSV was read into a
row sequence, or the file was absent/unreadable (`FileNotFoundError`). -/
inductive LoadResult where
  | sourceUnavailable : LoadResult
  | ok : List Transaction → LoadResult
deriving DecidableEq

/-- The aggregate outputs `main` exposes to the presentation layer: the
daily series, the three dimension rankings and the overall average. -/
structure DashboardOutput where
  daily : List DailyRow
  byName : List DimRow
  byCategory : List DimRow
  bySize : List DimRow
  avgOrderValue : ℚ
deriving DecidableEq

/-- The control flow of `main` around loading (lines 13-49): on
`FileNotFoundError` it reports the error and returns before any
preprocessing or aggregation (line 17), otherwise it computes all
aggregate views. -/
def main_pipeline (parse : String → ℤ) (load : LoadResult) : Option DashboardOutput :=
  match load with
  | .sourceUnavailable => none
  | .ok ts =>
      some ⟨daily_sales parse ts, pizza_name_sales ts, pizza_category_sales ts,
            pizza_size_sales ts, overall_average_order_value ts⟩

/-- Modelled from the spec (§4.3 item 3), for comparison with the code's
`overall_average_order_value`: "first reduce transactions to per-order
totals (sum total_price grouped by order_id), then compute the arithmetic
mean of those per-order totals across all distinct orders" — here the
distinct `order_id` values are taken in order of appearance, with no
sorting step. -/
def spec_mean_order_value (ts : List Transaction) : ℚ :=
  let ids := (ts.map Transaction.order_id).dedup
  let totals := ids.map
    (fun i => ((ts.filter (fun t => t.order_id = i)).map Transaction.total_price).sum)
  totals.sum / (totals.length : ℚ)

/-! ### General lemmas about grouped sums -/

/-- Splitting a mapped sum along a boolean predicate. -/
theorem sum_map_filter_split {α M : Type} [AddCommMonoid M] (p : α → Bool) (f : α → M) :
    ∀ l : List α,
      ((l.filter p).map f).sum + ((l.filter (fun a => !(p a))).map f).sum = (l.map f).sum
  | [] => by simp
  | a :: l => by
    by_cases h : p a = true <;>
      simp [List.filter_cons, h, ← sum_map_filter_split p f l, add_assoc, add_left_comm]

/-- Summing group-by-group recovers the total: if `ks` lists each key at
most once and covers every key occurring in `l`, then the sum over `ks` of
the per-group sums equals the sum over `l`. -/
theorem sum_fiberwise {α κ M : Type} [DecidableEq κ] [AddCommMonoid M]
    (key : α → κ) (f : α → M) :
    ∀ (ks : List κ) (l : List α), ks.Nodup → (∀ a ∈ l, key a ∈ ks) →
      (ks.map (fun k => ((l.filter (fun a => key a = k)).map f).sum)).sum = (l.map f).sum
  | [], l, _, hcov => by
    have hl : l = [] := by
      cases l with
      | nil => rfl
      | cons a l => exact absurd (hcov a (List.mem_cons_self a l)) (List.not_mem_nil _)
    simp [hl]
  | k :: ks, l, hnd, hcov => by
    have hk : k ∉ ks := (List.nodup_cons.mp hnd).1
    have hnd' : ks.Nodup := (List.nodup_cons.mp hnd).2
    set l' := l.filter (fun a => !(decide (key a = k))) with hl'
    have hcov' : ∀ a ∈ l', key a ∈ ks := by
      intro a ha
      have hmem := List.mem_filter.mp ha
      have hne : key a ≠ k := by simpa using hmem.2
      rcases List.mem_cons.mp (hcov a hmem.1) with h | h
      · exact absurd h hne
      · exact h
    have hsame : ∀ k' ∈ ks,
        l.filter (fun a => key a = k') = l'.filter (fun a => key a = k') := by
      intro k' hk'
      rw [hl', List.filter_filter]
      apply List.filter_congr
      intro a _
      by_cases h : key a = k'
      · have hne : ¬ k' = k := fun hEq => hk (hEq ▸ hk')
        simp [h, hne]
      · simp [h]
    have hmap : ks.map (fun k' => ((l.filter (fun a => key a = k')).map f).sum)
        = ks.map (fun k' => ((l'.filter (fun a => key a = k')).map f).sum) :=
      List.map_congr_left (fun k' hk' => by rw [hsame k' hk'])
    calc ((k :: ks).map (fun k' => ((l.filter (fun a => key a = k')).map f).sum)).sum
        = ((l.filter (fun a => key a = k)).map f).sum
            + (ks.map (fun k' => ((l'.filter (fun a => key a = k')).map f).sum)).sum := by
          rw [List.map_cons, List.sum_cons, hmap]
      _ = ((l.filter (fun a => key a = k)).map f).sum + (l'.map f).sum := by
          rw [sum_fiberwise key f ks l' hnd' hcov']
      _ = (l.map f).sum := by
          rw [hl']; exact sum_map_filter_split (fun a => decide (key a = k)) f l

/-! ### Basic facts about the group keys -/

theorem groupKeys_nodup {κ : Type} [DecidableEq κ] (le : κ → κ → Bool)
    (key : Transaction → κ) (ts : List Transaction) : (groupKeys le key ts).Nodup :=
  ((List.perm_insertionSort _ _).nodup_iff).mpr (List.nodup_dedup _)

theorem mem_groupKeys {κ : Type} [DecidableEq κ] {le : κ → κ → Bool}
    {key : Transaction → κ} {ts : List Transaction} {k : κ} :
    k ∈ groupKeys le key ts ↔ k ∈ ts.map key := by
  unfold groupKeys
  rw [(List.perm_insertionSort _ _).mem_iff, List.mem_dedup]

/-- Every distinct `order_date` value contributes its aggregate row to the
(sorted) daily series. -/
theorem dailyRowOf_mem_daily_sales (parse : String → ℤ) {ts : List Transaction} {d : String}
    (hd : d ∈ ts.map Transaction.order_date) :
    dailyRowOf ts d ∈ daily_sales parse ts :=
  ((List.perm_insertionSort _ _).mem_iff).mpr
    (List.mem_map_of_mem (dailyRowOf ts) (mem_groupKeys.mpr hd))

/-- Every distinct dimension value contributes its aggregate row to the
(sorted) dimension ranking. -/
theorem dimRowOf_mem_dimension_sales {dim : Transaction → String} {ts : List Transaction}
    {k : String} (hk : k ∈ ts.map dim) :
    dimRowOf dim ts k ∈ dimension_sales dim ts :=
  ((List.perm_insertionSort _ _).mem_iff).mpr
    (List.mem_map_of_mem (dimRowOf dim ts) (mem_groupKeys.mpr hk))

/-- The number of entries of a dimension ranking is the number of distinct
dimension values. -/
theorem dimension_sales_length (dim : Transaction → String) (ts : List Transaction) :
    (dimension_sales dim ts).length = ((ts.map dim).dedup).length := by
  unfold dimension_sales
  rw [(List.perm_insertionSort _ _).length_eq, List.length_map]
  exact (List.perm_insertionSort _ _).length_eq

/-- A dimension ranking is sorted descending by `total_revenue`. -/
theorem dimension_sales_sorted (dim : Transaction → String) (ts : List Transaction) :
    (dimension_sales dim ts).Sorted (fun a b => b.total_revenue ≤ a.total_revenue) := by
  haveI : IsTotal DimRow (fun a b : DimRow => b.total_revenue ≤ a.total_revenue) :=
    ⟨fun a b => le_total _ _⟩
  haveI : IsTrans DimRow (fun a b : DimRow => b.total_revenue ≤ a.total_revenue) :=
    ⟨fun _ _ _ hab hbc => le_trans hbc hab⟩
  exact List.sorted_insertionSort _ _

/-- Every entry of a dimension ranking carries the revenue and quantity
sums of exactly the rows whose dimension value is its key. -/
theorem dimension_sales_group_sums {dim : Transaction → String} {ts : List Transaction}
    {r : DimRow} (hr : r ∈ dimension_sales dim ts) :
    r.total_revenue = ((ts.filter (fun t => dim t = r.key)).map Transaction.total_price).sum
    ∧ r.total_quantity_sold
        = ((ts.filter (fun t => dim t = r.key)).map Transaction.quantity).sum := by
  have hr' := ((List.perm_insertionSort _ _).mem_iff).mp hr
  rcases List.mem_map.mp hr' with ⟨k, _, rfl⟩
  exact ⟨rfl, rfl⟩

/-! ### Sample data used by the witnesses -/

/-- A small concrete dataset: four line items in three orders over two
days, three distinct pizza names. -/
def exTs : List Transaction :=
  [⟨1, "2015-01-01", "11:38:36", "Hawaiian", "Classic", "M", 1, 13⟩,
   ⟨1, "2015-01-01", "11:57:40", "Mexicana", "Veggie", "L", 2, 7⟩,
   ⟨2, "2015-01-02", "12:12:28", "Hawaiian", "Classic", "L", 1, 17⟩,
   ⟨3, "2015-01-02", "12:30:00", "Barbecue Chicken", "Chicken", "M", 1, 16⟩]

/-! ### The claims -/

/-- C1: For every input transaction sequence, the sum of
`daily_total_revenue` over all entries of the daily-sales aggregate equals
the sum of `total_price` over all transactions in the input. -/
theorem daily_revenue_sum_eq_total_revenue (parse : String → ℤ) (ts : List Transaction) :
    ((daily_sales parse ts).map DailyRow.daily_total_revenue).sum
      = (ts.map Transaction.total_price).sum := by
  have hperm := List.perm_insertionSort
    (fun a b : DailyRow => parse a.order_date ≤ parse b.order_date) (daily_sales_unsorted ts)
  rw [daily_sales, (hperm.map DailyRow.daily_total_revenue).sum_eq,
    daily_sales_unsorted, List.map_map]
  exact sum_fiberwise Transaction.order_date Transaction.total_price _ ts
    (groupKeys_nodup _ _ _) (fun t ht => mem_groupKeys.mpr (List.mem_map_of_mem _ ht))

/-- C5: For every input, the daily-sales aggregate is sorted ascending by
(parsed) `order_date`: the whole series is pairwise ordered, and in
particular across consecutive entries the date is monotonically
non-decreasing. -/
theorem daily_sales_sorted_by_date (parse : String → ℤ) (ts : List Transaction) :
    (daily_sales parse ts).Sorted (fun a b => parse a.order_date ≤ parse b.order_date)
    ∧ (daily_sales parse ts).Chain' (fun a b => parse a.order_date ≤ parse b.order_date) := by
  haveI : IsTotal DailyRow (fun a b : DailyRow => parse a.order_date ≤ parse b.order_date) :=
    ⟨fun a b => le_total _ _⟩
  haveI : IsTrans DailyRow (fun a b : DailyRow => parse a.order_date ≤ parse b.order_date) :=
    ⟨fun _ _ _ hab hbc => le_trans hab hbc⟩
  have hs := List.sorted_insertionSort
    (fun a b : DailyRow => parse a.order_date ≤ parse b.order_date) (daily_sales_unsorted ts)
  exact ⟨hs, hs.chain'⟩

/-- C7: When the dataset cannot be read the pipeline short-circuits: the
`sourceUnavailable` outcome produces no aggregate output, and it is the
only load outcome that does. -/
theorem pipeline_short_circuits_on_missing_source (parse : String → ℤ) :
    main_pipeline parse LoadResult.sourceUnavailable = none
    ∧ ∀ load : LoadResult,
        main_pipeline parse load = none ↔ load = LoadResult.sourceUnavailable := by
  refine ⟨rfl, fun load => ?_⟩
  cases load <;> simp [main_pipeline]

/-- C8: Every entry of the daily-sales aggregate arises from at least one
transaction, so `daily_unique_orders ≥ 1` and the division defining
`daily_average_order_value` never has a zero denominator. -/
theorem daily_unique_orders_pos (parse : String → ℤ) (ts : List Transaction)
    (r : DailyRow) (hr : r ∈ daily_sales parse ts) : 1 ≤ r.daily_unique_orders := by
  have hr' : r ∈ daily_sales_unsorted ts := ((List.perm_insertionSort _ _).mem_iff).mp hr
  rcases List.mem_map.mp hr' with ⟨d, hd, rfl⟩
  rcases List.mem_map.mp (mem_groupKeys.mp hd) with ⟨t, ht, hdt⟩
  have htf : t ∈ ts.filter (fun t => t.order_date = d) :=
    List.mem_filter.mpr ⟨ht, by simp [hdt]⟩
  have hne : ((ts.filter (fun t => t.order_date = d)).map Transaction.order_id).dedup ≠ [] := by
    intro hnil
    exact List.ne_nil_of_mem htf (List.map_eq_nil_iff.mp ((List.dedup_eq_nil _).mp hnil))
  show 1 ≤ (((ts.filter (fun t => t.order_date = d)).map Transaction.order_id).dedup).length
  exact Nat.one_le_iff_ne_zero.mpr (fun h => hne (List.length_eq_zero.mp h))

/-- Witness for C8 at a concrete input: the 2015-01-01 group of `exTs`. -/
theorem daily_unique_orders_pos_witness :
    1 ≤ (dailyRowOf exTs "2015-01-01").daily_unique_orders
    ∧ (dailyRowOf exTs "2015-01-01").daily_unique_orders = 1 := by
  refine ⟨daily_unique_orders_pos (fun _ => 0) exTs (dailyRowOf exTs "2015-01-01")
    (dailyRowOf_mem_daily_sales (fun _ => 0) (by decide)), by decide⟩

/-- C3: Each of the three dimension-sales aggregates is sorted descending
by `total_revenue`, and every entry's `total_revenue` and
`total_quantity_sold` are the sums of `total_price` and `quantity` over
exactly the input rows whose dimension value matches the entry's key. -/
theorem dimension_rankings_sorted_and_correct (ts : List Transaction) :
    ((pizza_name_sales ts).Sorted (fun a b => b.total_revenue ≤ a.total_revenue)
      ∧ ∀ r ∈ pizza_name_sales ts,
          r.total_revenue
              = ((ts.filter (fun t => t.pizza_name = r.key)).map Transaction.total_price).sum
          ∧ r.total_quantity_sold
              = ((ts.filter (fun t => t.pizza_name = r.key)).map Transaction.quantity).sum)
    ∧ ((pizza_category_sales ts).Sorted (fun a b => b.total_revenue ≤ a.total_revenue)
      ∧ ∀ r ∈ pizza_category_sales ts,
          r.total_revenue
              = ((ts.filter (fun t => t.pizza_category = r.key)).map Transaction.total_price).sum
          ∧ r.total_quantity_sold
              = ((ts.filter (fun t => t.pizza_category = r.key)).map Transaction.quantity).sum)
    ∧ ((pizza_size_sales ts).Sorted (fun a b => b.total_revenue ≤ a.total_revenue)
      ∧ ∀ r ∈ pizza_size_sales ts,
          r.total_revenue
              = ((ts.filter (fun t => t.pizza_size = r.key)).map Transaction.total_price).sum
          ∧ r.total_quantity_sold
              = ((ts.filter (fun t => t.pizza_size = r.key)).map Transaction.quantity).sum) :=
  ⟨⟨dimension_sales_sorted _ ts, fun _ hr => dimension_sales_group_sums hr⟩,
   ⟨dimension_sales_sorted _ ts, fun _ hr => dimension_sales_group_sums hr⟩,
   ⟨dimension_sales_sorted _ ts, fun _ hr => dimension_sales_group_sums hr⟩⟩

/-- Witness for C3 at a concrete input: the "Hawaiian" group of `exTs`. -/
theorem dimension_rankings_sorted_and_correct_witness :
    (pizza_name_sales exTs).Sorted (fun a b => b.total_revenue ≤ a.total_revenue)
    ∧ (dimRowOf Transaction.pizza_name exTs "Hawaiian").total_revenue
        = ((exTs.filter
            (fun t => t.pizza_name = (dimRowOf Transaction.pizza_name exTs "Hawaiian").key)).map
              Transaction.total_price).sum := by
  have h := dimension_rankings_sorted_and_correct exTs
  exact ⟨h.1.1, (h.1.2 _ (dimRowOf_mem_dimension_sales (by decide))).1⟩

/-- C4: For every valid `k` (between 1 and the number of distinct pizza
names), the top-K view is exactly the first `k` entries of the
descending-by-revenue name ranking, has length `k`, and is a prefix of the
ranking and of every larger top-K view (strictly shorter, hence a strict
prefix, when `k < k2 ≤` the number of names). -/
theorem top_n_pizzas_prefix (ts : List Transaction) (k k2 : Nat)
    (_h1 : 1 ≤ k) (h2 : k ≤ (pizza_name_sales ts).length) (h12 : k ≤ k2) :
    top_n_pizzas ts k = (pizza_name_sales ts).take k
    ∧ (top_n_pizzas ts k).length = k
    ∧ top_n_pizzas ts k <+: pizza_name_sales ts
    ∧ top_n_pizzas ts k <+: top_n_pizzas ts k2
    ∧ (k < k2 → k2 ≤ (pizza_name_sales ts).length →
        top_n_pizzas ts k ≠ top_n_pizzas ts k2) := by
  have hlen : ∀ m : Nat, m ≤ (pizza_name_sales ts).length → (top_n_pizzas ts m).length = m := by
    intro m hm
    rw [top_n_pizzas, List.length_take]
    omega
  refine ⟨rfl, hlen k h2, List.take_prefix _ _, List.take_prefix_take_left _ h12, ?_⟩
  intro hlt hk2 heq
  have l1 := hlen k h2
  rw [heq, hlen k2 hk2] at l1
  omega

/-- Witness for C4 at a concrete input: `k = 1`, `k2 = 2` on `exTs`, whose
three distinct pizza names make both values of K valid. -/
theorem top_n_pizzas_prefix_witness :
    (top_n_pizzas exTs 1 = (pizza_name_sales exTs).take 1
      ∧ (top_n_pizzas exTs 1).length = 1
      ∧ top_n_pizzas exTs 1 <+: pizza_name_sales exTs
      ∧ top_n_pizzas exTs 1 <+: top_n_pizzas exTs 2
      ∧ (1 < 2 → 2 ≤ (pizza_name_sales exTs).length →
          top_n_pizzas exTs 1 ≠ top_n_pizzas exTs 2))
    ∧ top_n_pizzas exTs 1 ≠ top_n_pizzas exTs 2 := by
  have hlen : (pizza_name_sales exTs).length = 3 := by
    rw [pizza_name_sales, dimension_sales_length]
    decide
  have h := top_n_pizzas_prefix exTs 1 2 (by omega) (by omega) (by omega)
  exact ⟨h, h.2.2.2.2 (by omega) (by omega)⟩

/-- C6: The date-range filter keeps exactly the daily entries whose parsed
date lies in the inclusive interval `[s, e]`, as a sublist (hence in the
same relative order) of the unfiltered series. -/
theorem filtered_daily_sales_spec (parse : String → ℤ) (ts : List Transaction) (s e : ℤ) :
    (∀ r : DailyRow, r ∈ filtered_daily_sales parse ts s e
        ↔ r ∈ daily_sales parse ts ∧ s ≤ parse r.order_date ∧ parse r.order_date ≤ e)
    ∧ List.Sublist (filtered_daily_sales parse ts s e) (daily_sales parse ts) := by
  constructor
  · intro r
    rw [filtered_daily_sales, List.mem_filter]
    simp
  · exact List.filter_sublist _

/-- A dataset with three orders whose totals are 20, 15 and 25, composed
of two, one and three line items respectively. -/
def exC2 : List Transaction :=
  [⟨1, "2015-01-01", "11:00:00", "Hawaiian", "Classic", "M", 1, 12⟩,
   ⟨1, "2015-01-01", "11:00:00", "Mexicana", "Veggie", "S", 1, 8⟩,
   ⟨2, "2015-01-01", "12:00:00", "Hawaiian", "Classic", "L", 1, 15⟩,
   ⟨3, "2015-01-02", "13:00:00", "Pepperoni", "Classic", "M", 2, 10⟩,
   ⟨3, "2015-01-02", "13:00:00", "Mexicana", "Veggie", "M", 1, 10⟩,
   ⟨3, "2015-01-02", "13:00:00", "Hawaiian", "Classic", "S", 1, 5⟩]

/-- C2: The overall average order value is the arithmetic mean, over all
distinct `order_id` values, of the per-order `total_price` sums (the code
agrees with the spec's mean-of-per-order-totals description), and on three
orders with totals 20, 15 and 25 — of two, one and three line items — it
is exactly 20. -/
theorem overall_average_is_mean_of_order_totals :
    (∀ ts : List Transaction, overall_average_order_value ts = spec_mean_order_value ts)
    ∧ overall_average_order_value exC2 = 20 := by
  constructor
  · intro ts
    unfold overall_average_order_value spec_mean_order_value order_totals groupKeys
    have hperm := (List.perm_insertionSort (fun a b : Nat => Nat.ble a b = true)
        ((ts.map Transaction.order_id).dedup)).map
      (fun i => ((ts.filter (fun t => t.order_id = i)).map Transaction.total_price).sum)
    rw [hperm.sum_eq, hperm.length_eq]
  · have hkeys : groupKeys Nat.ble Transaction.order_id exC2 = [1, 2, 3] := by decide
    have htot : order_totals exC2 = [20, 15, 25] := by
      rw [order_totals, hkeys]
      norm_num [exC2, List.filter]
    rw [overall_average_order_value, htot]
    norm_num

/-- C9: The Enricher is a pure map over the transaction sequence: the new
sequence projects back onto the input (so every original field is left
unmodified and the length is preserved), and each element carries the
three derived fields computed from its own `order_date`/`order_time`. -/
theorem enrich_pure (parseDT : String → ℤ) (hourOf : ℤ → Nat) (dayName : ℤ → String)
    (ts : List Transaction) :
    (enrich parseDT hourOf dayName ts).map Enriched.base = ts
    ∧ (enrich parseDT hourOf dayName ts).length = ts.length
    ∧ ∀ e ∈ enrich parseDT hourOf dayName ts,
        e.order_datetime = parseDT (e.base.order_date ++ " " ++ e.base.order_time)
        ∧ e.hour = hourOf e.order_datetime
        ∧ e.day_of_week = dayName e.order_datetime := by
  refine ⟨?_, ?_, ?_⟩
  · rw [enrich, List.map_map]
    exact List.map_id ts
  · rw [enrich, List.length_map]
  · intro e he
    rcases List.mem_map.mp he with ⟨t, _, rfl⟩
    exact ⟨rfl, rfl, rfl⟩

/-- Witness for C9 at a concrete input: constant derivation functions on
`exTs`, checked on the first enriched row. -/
theorem enrich_pure_witness :
    (enrich (fun _ => 5) (fun _ => 11) (fun _ => "Thursday") exTs).map Enriched.base = exTs
    ∧ (⟨⟨1, "2015-01-01", "11:38:36", "Hawaiian", "Classic", "M", 1, 13⟩, 5, 11,
        "Thursday"⟩ : Enriched).order_datetime = 5 := by
  have h := enrich_pure (fun _ => 5) (fun _ => 11) (fun _ => "Thursday") exTs
  exact ⟨h.1, (h.2.2 ⟨⟨1, "2015-01-01", "11:38:36", "Hawaiian", "Classic", "M", 1, 13⟩,
    5, 11, "Thursday"⟩ (by decide)).1⟩

/-- Two rows denoting the same calendar day (1 Jan 2015) under two
different textual date formats. -/
def exMixed : List Transaction :=
  [⟨1, "2015-01-01", "11:00:00", "Hawaiian", "Classic", "M", 1, 13⟩,
   ⟨2, "01/01/2015", "12:00:00", "Hawaiian", "Classic", "M", 1, 13⟩]

/-- A sample date parser that maps both textual forms of 1 Jan 2015 to the
same day ordinal. -/
def exParse (s : String) : ℤ := if s = "2015-01-02" then 16437 else 16436

/-- C10: Daily grouping is keyed by the raw `order_date` string: the
entries of the daily series carry pairwise distinct raw strings, every
input row's raw string is represented by an entry, and on a file holding
two textual forms of the same calendar date the series contains two
entries whose strings differ but whose parsed dates coincide. -/
theorem daily_grouping_by_raw_string :
    (∀ (parse : String → ℤ) (ts : List Transaction),
        ((daily_sales parse ts).map DailyRow.order_date).Nodup
        ∧ ∀ t ∈ ts, ∃ r ∈ daily_sales parse ts, r.order_date = t.order_date)
    ∧ (dailyRowOf exMixed "01/01/2015" ∈ daily_sales exParse exMixed
        ∧ dailyRowOf exMixed "2015-01-01" ∈ daily_sales exParse exMixed
        ∧ (dailyRowOf exMixed "01/01/2015").order_date
            ≠ (dailyRowOf exMixed "2015-01-01").order_date
        ∧ exParse (dailyRowOf exMixed "01/01/2015").order_date
            = exParse (dailyRowOf exMixed "2015-01-01").order_date) := by
  refine ⟨fun parse ts => ⟨?_, ?_⟩, ?_, ?_, ?_, ?_⟩
  · have hperm := (List.perm_insertionSort
        (fun a b : DailyRow => parse a.order_date ≤ parse b.order_date)
        (daily_sales_unsorted ts)).map DailyRow.order_date
    rw [daily_sales, hperm.nodup_iff, daily_sales_unsorted, List.map_map]
    have hid : (groupKeys strLe Transaction.order_date ts).map
        (DailyRow.order_date ∘ dailyRowOf ts) = groupKeys strLe Transaction.order_date ts :=
      List.map_id _
    rw [hid]
    exact groupKeys_nodup strLe Transaction.order_date ts
  · intro t ht
    exact ⟨dailyRowOf ts t.order_date,
      dailyRowOf_mem_daily_sales parse (List.mem_map_of_mem _ ht), rfl⟩
  · exact dailyRowOf_mem_daily_sales exParse (by decide)
  · exact dailyRowOf_mem_daily_sales exParse (by decide)
  · decide
  · decide

/-- Witness for C10 at a concrete input: the first row of `exMixed` has an
entry of the daily series carrying its raw date string. -/
theorem daily_grouping_by_raw_string_witness :
    ∃ r ∈ daily_sales exParse exMixed,
      r.order_date
        = (⟨1, "2015-01-01", "11:00:00", "Hawaiian", "Classic", "M", 1, 13⟩ :
            Transaction).order_date :=
  (daily_grouping_by_raw_string.1 exParse exMixed).2 _ (by decide)

end Dashboard
